import Mathlib

/-
Verification of the MiniLaboESP instrument core.

Shallow embedding conventions:
- C float arithmetic is embedded as exact rational arithmetic (Rat); the
  claims under study concern branch structure and exact algebraic identities
  at values where float rounding plays no role.
- The waveform synthesis path (FuncGen) uses Real, because it involves sin.
- Hardware reads (analogRead, readADC_SingleEnded) are modelled as explicit
  parameters: a Nat code for the internal ADC, an Int code for the ADS1115.
- Names follow the source where the token rules of plain Lean identifiers
  allow; the divider field named ratio in the source is called divider here,
  and IORegistry::registerIO is embedded as registerUnit.
-/

/- ===== ADS1115 gain selection (IORegistry.cpp, pgaToGain) =====
   The six adsGain_t constants of the Adafruit driver. -/

inductive AdsGain where
  | twoThirds  -- GAIN_TWOTHIRDS, full scale 6.144 V
  | one        -- GAIN_ONE,       full scale 4.096 V
  | two        -- GAIN_TWO,       full scale 2.048 V
  | four       -- GAIN_FOUR,      full scale 1.024 V
  | eight      -- GAIN_EIGHT,     full scale 0.512 V
  | sixteen    -- GAIN_SIXTEEN,   full scale 0.256 V
deriving DecidableEq

/-- Full-scale voltage of each gain setting, in volts. -/
def gainFullScale : AdsGain → ℚ
  | .twoThirds => 6.144
  | .one => 4.096
  | .two => 2.048
  | .four => 1.024
  | .eight => 0.512
  | .sixteen => 0.256

/-- Embedding of pgaToGain from IORegistry.cpp: a descending chain of
comparisons of the requested full scale pga against the six range bounds. -/
def pgaToGain (pga : ℚ) : AdsGain :=
  if pga ≥ 6.144 then .twoThirds
  else if pga ≥ 4.096 then .one
  else if pga ≥ 2.048 then .two
  else if pga ≥ 1.024 then .four
  else if pga ≥ 0.512 then .eight
  else .sixteen

/- ===== Logical I/O unit reads (IORegistry.h / IORegistry.cpp) ===== -/

/-- Embedding of the IOBase::readRaw default body, which returns 0.0f. -/
def IOBase_readRaw : ℚ := 0

/-- Embedding of IO_A0::readRaw: the analogRead code divided by
(1 << bits) - 1, with no clamping. -/
def IO_A0_readRaw (bits : ℕ) (code : ℕ) : ℚ :=
  (code : ℚ) / ((2 : ℚ) ^ bits - 1)

/-- Two sequential clamping ifs of IO_ADS1115::readRaw, applied to frac. -/
def clamp01Seq (x : ℚ) : ℚ :=
  let x1 := if x < 0 then 0 else x
  if x1 > 1 then 1 else x1

/-- Embedding of IO_ADS1115::readRaw: the signed 16-bit conversion code is
divided by 32767 and the result clamped into the unit interval. -/
def IO_ADS1115_readRaw (code : ℤ) : ℚ :=
  clamp01Seq ((code : ℚ) / 32767)

/- ===== Claim C1 ===== -/

/-- C1 counterexample: the claim says a request of pga = 2.0 V selects the
smallest range that still covers the request, so the 2.048 V range; the code
selects GAIN_FOUR, whose full scale 1.024 V lies strictly below the request. -/
theorem C1_counterexample :
    pgaToGain 2 = AdsGain.four ∧ gainFullScale (pgaToGain 2) < 2 := by
  constructor
  · norm_num [pgaToGain]
  · norm_num [pgaToGain, gainFullScale]

/-- C1 (amended): for every request pga of at least 0.256 V, pgaToGain picks
the largest supported full-scale range that is still at most pga: the chosen
full scale never exceeds the request, and every supported full scale that
fits under the request is at most the chosen one. -/
theorem C1_gain_selection (pga : ℚ) (h : 0.256 ≤ pga) :
    gainFullScale (pgaToGain pga) ≤ pga ∧
    ∀ g : AdsGain, gainFullScale g ≤ pga → gainFullScale g ≤ gainFullScale (pgaToGain pga) := by
  unfold pgaToGain
  split_ifs with h1 h2 h3 h4 h5 <;> push_neg at * <;>
    refine ⟨by simp only [gainFullScale]; linarith, ?_⟩ <;>
    rintro (_ | _ | _ | _ | _ | _) hg <;> simp only [gainFullScale] at hg ⊢ <;> linarith

/-- C1 witness: the amended selection rule applied at the concrete request
pga = 2 volts. -/
theorem C1_witness :
    (0.256 : ℚ) ≤ 2 ∧
    (gainFullScale (pgaToGain 2) ≤ 2 ∧
      ∀ g : AdsGain, gainFullScale g ≤ 2 → gainFullScale g ≤ gainFullScale (pgaToGain 2)) :=
  ⟨by norm_num, C1_gain_selection 2 (by norm_num)⟩

/- ===== Claim C2 ===== -/

/-- C2 counterexample: with a configured bit depth of 8 the internal ADC unit
normalizes by 255, so the legal 10-bit hardware code 1023 produces a raw value
above 1; IO_A0::readRaw has no clamp, refuting the unconditional [0, 1] range
claim. -/
theorem C2_counterexample :
    IO_A0_readRaw 8 1023 = 1023 / 255 ∧ 1 < IO_A0_readRaw 8 1023 := by
  constructor
  · norm_num [IO_A0_readRaw]
  · norm_num [IO_A0_readRaw]

/-- C2 (amended): the ADS1115 unit always reads inside [0, 1] whatever the
signed conversion code, and the non-readable default reads exactly 0; the
internal ADC unit reads inside [0, 1] only under the proviso that the
hardware code does not exceed 2 ^ bits - 1 (with bits at least 1), since its
normalization is unclamped. -/
theorem C2_readRaw_range (bits code : ℕ) (adsCode : ℤ)
    (hb : 1 ≤ bits) (hc : code ≤ 2 ^ bits - 1) :
    (0 ≤ IO_A0_readRaw bits code ∧ IO_A0_readRaw bits code ≤ 1) ∧
    (0 ≤ IO_ADS1115_readRaw adsCode ∧ IO_ADS1115_readRaw adsCode ≤ 1) ∧
    IOBase_readRaw = 0 := by
  have hpow : (2 : ℚ) ≤ (2 : ℚ) ^ bits := by
    calc (2 : ℚ) = 2 ^ 1 := (pow_one 2).symm
    _ ≤ 2 ^ bits := by
      apply pow_le_pow_right₀ (by norm_num) hb
  have hden : (0 : ℚ) < (2 : ℚ) ^ bits - 1 := by linarith
  have hcQ : (code : ℚ) ≤ (2 : ℚ) ^ bits - 1 := by
    have h1 : (1 : ℕ) ≤ 2 ^ bits := Nat.one_le_two_pow
    have := (Nat.cast_le (α := ℚ)).mpr hc
    rw [Nat.cast_sub h1] at this
    push_cast at this
    linarith
  refine ⟨⟨?_, ?_⟩, ⟨?_, ?_⟩, rfl⟩
  · exact div_nonneg (Nat.cast_nonneg code) (le_of_lt hden)
  · rw [IO_A0_readRaw, div_le_one hden]
    exact hcQ
  · simp only [IO_ADS1115_readRaw, clamp01Seq]
    split_ifs <;> linarith
  · simp only [IO_ADS1115_readRaw, clamp01Seq]
    split_ifs <;> linarith

/-- C2 witness: the amended range statement at bit depth 10, internal code
512, and ADS1115 code -5. -/
theorem C2_witness :
    1 ≤ 10 ∧ 512 ≤ 2 ^ 10 - 1 ∧
    ((0 ≤ IO_A0_readRaw 10 512 ∧ IO_A0_readRaw 10 512 ≤ 1) ∧
      (0 ≤ IO_ADS1115_readRaw (-5) ∧ IO_ADS1115_readRaw (-5) ≤ 1) ∧
      IOBase_readRaw = 0) :=
  ⟨by norm_num, by norm_num, C2_readRaw_range 10 512 (-5) (by norm_num) (by norm_num)⟩

/- ===== Measurement Engine (DMM.cpp) ===== -/

structure DMMChannel where
  buffer : List ℚ
  sum : ℚ
  last : ℚ
deriving DecidableEq

/-- Fresh channel state as built by DMM::begin: empty buffer, zero sum. -/
def dmmInit : DMMChannel := ⟨[], 0, 0⟩

/-- Embedding of the filter update of DMM::loop for one channel and one
converted sample: while the buffer is below the window size the sample is
appended and added to the running sum; otherwise the oldest element is
subtracted from the sum and erased before the append; the displayed average
is then the running sum divided by the element count. -/
def dmmStep (W : ℕ) (ch : DMMChannel) (value : ℚ) : DMMChannel :=
  if ch.buffer.length < W then
    { buffer := ch.buffer ++ [value], sum := ch.sum + value,
      last := (ch.sum + value) / ((ch.buffer ++ [value]).length : ℚ) }
  else
    { buffer := ch.buffer.tail ++ [value], sum := ch.sum - ch.buffer.headI + value,
      last := (ch.sum - ch.buffer.headI + value) / ((ch.buffer.tail ++ [value]).length : ℚ) }

/-- Successive DMM::loop filter updates over a whole sequence of converted
samples, starting from the state built by DMM::begin. -/
def dmmRun (W : ℕ) (xs : List ℚ) : DMMChannel := xs.foldl (dmmStep W) dmmInit

lemma dmmRun_append (W : ℕ) (xs : List ℚ) (v : ℚ) :
    dmmRun W (xs ++ [v]) = dmmStep W (dmmRun W xs) v := by
  simp [dmmRun, List.foldl_append]

lemma dmmStep_last (W : ℕ) (st : DMMChannel) (v : ℚ) :
    (dmmStep W st v).last = (dmmStep W st v).sum / ((dmmStep W st v).buffer.length : ℚ) := by
  unfold dmmStep
  split_ifs <;> rfl

lemma dmmRun_state (W : ℕ) (hW : 1 ≤ W) (xs : List ℚ) :
    (dmmRun W xs).buffer = xs.drop (xs.length - W) ∧
    (dmmRun W xs).sum = (xs.drop (xs.length - W)).sum := by
  induction xs using List.reverseRecOn with
  | nil => constructor <;> simp [dmmRun, dmmInit]
  | append_singleton xs v ih =>
    obtain ⟨hb, hs⟩ := ih
    have hlen : (dmmRun W xs).buffer.length = xs.length - (xs.length - W) := by
      rw [hb, List.length_drop]
    rw [dmmRun_append]
    by_cases hn : xs.length < W
    · have h0 : xs.length - W = 0 := by omega
      have h1 : xs.length + 1 - W = 0 := by omega
      have hc : (dmmRun W xs).buffer.length < W := by omega
      rw [h0, List.drop_zero] at hb hs
      rw [dmmStep, if_pos hc]
      constructor
      · simp only [List.length_append, List.length_singleton, h1, List.drop_zero, hb]
      · simp only [List.length_append, List.length_singleton, h1, List.drop_zero,
          List.sum_append, List.sum_cons, List.sum_nil, hs]
        ring
    · have hWn : W ≤ xs.length := by omega
      have hc : ¬ (dmmRun W xs).buffer.length < W := by omega
      have hne : (dmmRun W xs).buffer ≠ [] := by
        apply List.ne_nil_of_length_pos
        omega
      obtain ⟨a, t, hat⟩ := List.exists_cons_of_ne_nil hne
      have htail : t = xs.drop (xs.length + 1 - W) := by
        have := congrArg List.tail hat
        rw [hb, List.tail_drop] at this
        simp only [List.tail_cons] at this
        rw [← this]
        congr 1
        omega
      have hdrop : (xs ++ [v]).drop (xs.length + 1 - W)
          = xs.drop (xs.length + 1 - W) ++ [v] :=
        List.drop_append_of_le_length (by omega)
      rw [dmmStep, if_neg hc]
      constructor
      · simp only [List.length_append, List.length_singleton, hdrop, hat,
          List.tail_cons, htail]
      · have hsum : (dmmRun W xs).sum = a + t.sum := by
          rw [hs, ← hb, hat, List.sum_cons]
        have hhead : (dmmRun W xs).buffer.headI = a := by
          rw [hat, List.headI_cons]
        simp only [List.length_append, List.length_singleton, hdrop, hat,
          List.tail_cons, List.headI_cons, List.sum_append, List.sum_cons,
          List.sum_nil, hsum, hhead, htail]
        ring

/-- C4: after feeding any non-empty sample sequence into a channel with
window W, the buffer is exactly the most recent min(n, W) samples in
chronological order, the running sum equals the sum of the buffer, the
reported average is the running sum divided by the element count, and once at
least W samples have been fed it equals the arithmetic mean of exactly the
last W samples. -/
theorem C4_sliding_window (W : ℕ) (xs : List ℚ) (hW : 1 ≤ W) (hne : xs ≠ []) :
    (dmmRun W xs).buffer = xs.drop (xs.length - W) ∧
    (dmmRun W xs).buffer.length = min xs.length W ∧
    (dmmRun W xs).sum = ((dmmRun W xs).buffer).sum ∧
    (dmmRun W xs).last = (dmmRun W xs).sum / ((dmmRun W xs).buffer.length : ℚ) ∧
    (W ≤ xs.length → (dmmRun W xs).last = (xs.drop (xs.length - W)).sum / (W : ℚ)) := by
  obtain ⟨hb, hs⟩ := dmmRun_state W hW xs
  have hlen : (dmmRun W xs).buffer.length = min xs.length W := by
    rw [hb, List.length_drop]
    omega
  have hlast : (dmmRun W xs).last
      = (dmmRun W xs).sum / ((dmmRun W xs).buffer.length : ℚ) := by
    rcases List.eq_nil_or_concat xs with hxe | ⟨ys, v, hys⟩
    · exact absurd hxe hne
    · rw [hys, List.concat_eq_append, dmmRun_append]
      exact dmmStep_last W (dmmRun W ys) v
  refine ⟨hb, hlen, by rw [hs, hb], hlast, ?_⟩
  intro hWn
  rw [hlast, hs, ← hb, hlen]
  congr 1
  norm_cast
  omega

/-- C4 witness: the sliding-window characterization at window 2 over the
sample sequence 1, 2, 3. -/
theorem C4_witness :
    1 ≤ 2 ∧ ([1, 2, 3] : List ℚ) ≠ [] ∧
    ((dmmRun 2 [1, 2, 3]).buffer = [1, 2, 3].drop ([1, 2, 3].length - 2) ∧
      (dmmRun 2 [1, 2, 3]).buffer.length = min ([1, 2, 3] : List ℚ).length 2 ∧
      (dmmRun 2 [1, 2, 3]).sum = ((dmmRun 2 [1, 2, 3]).buffer).sum ∧
      (dmmRun 2 [1, 2, 3]).last
        = (dmmRun 2 [1, 2, 3]).sum / ((dmmRun 2 [1, 2, 3]).buffer.length : ℚ) ∧
      (2 ≤ ([1, 2, 3] : List ℚ).length →
        (dmmRun 2 [1, 2, 3]).last
          = (([1, 2, 3] : List ℚ).drop ([1, 2, 3].length - 2)).sum / (2 : ℚ))) :=
  ⟨by norm_num, by decide, C4_sliding_window 2 [1, 2, 3] (by norm_num) (by decide)⟩

/- ===== Capture Engine (Scope.cpp) ===== -/

/-- Embedding of the rescaling of Scope::loop: when the configured amplitude
is positive the offset-shifted value is divided by it, otherwise the division
is skipped and only the offset is subtracted. -/
def scopeRescale (amplitude offset value : ℚ) : ℚ :=
  if amplitude > 0 then (value - offset) / amplitude else value - offset

/-- Embedding of the buffer append of Scope::loop: append below capacity,
otherwise first erase the single oldest element. -/
def scopePush (N : ℕ) (buf : List ℚ) (scaled : ℚ) : List ℚ :=
  if buf.length < N then buf ++ [scaled] else buf.tail ++ [scaled]

/-- Successive Scope::loop updates of one channel over a sequence of
converted values, starting from the empty buffer built by Scope::begin. -/
def scopeRun (N : ℕ) (amplitude offset : ℚ) (vs : List ℚ) : List ℚ :=
  vs.foldl (fun buf value => scopePush N buf (scopeRescale amplitude offset value)) []

lemma scopePush_fold (N : ℕ) (hN : 1 ≤ N) (ws : List ℚ) :
    ws.foldl (scopePush N) [] = ws.drop (ws.length - N) := by
  induction ws using List.reverseRecOn with
  | nil => simp
  | append_singleton ws v ih =>
    rw [List.foldl_append, List.foldl_cons, List.foldl_nil, ih]
    have hlen : (ws.drop (ws.length - N)).length = ws.length - (ws.length - N) :=
      List.length_drop _ _
    by_cases hn : ws.length < N
    · have h0 : ws.length - N = 0 := by omega
      have h1 : ws.length + 1 - N = 0 := by omega
      rw [scopePush, if_pos (by omega)]
      simp only [List.length_append, List.length_singleton, h0, h1, List.drop_zero]
    · have h1 : ws.length + 1 - N = ws.length - N + 1 := by omega
      rw [scopePush, if_neg (by omega)]
      rw [List.tail_drop]
      rw [List.length_append, List.length_singleton, h1,
        List.drop_append_of_le_length (by omega)]

/-- C5: a capture channel buffer with capacity N never exceeds N elements;
after n insertions it holds exactly min(n, N) samples, namely the last
min(n, N) rescaled values in chronological order, each insertion beyond
capacity evicting the single oldest element. -/
theorem C5_capture_fifo (N : ℕ) (amplitude offset : ℚ) (vs : List ℚ) (hN : 1 ≤ N) :
    scopeRun N amplitude offset vs
      = (vs.map (scopeRescale amplitude offset)).drop (vs.length - N) ∧
    (scopeRun N amplitude offset vs).length = min vs.length N ∧
    (scopeRun N amplitude offset vs).length ≤ N := by
  have hmap : scopeRun N amplitude offset vs
      = (vs.map (scopeRescale amplitude offset)).foldl (scopePush N) [] := by
    rw [scopeRun, List.foldl_map]
  have h1 : scopeRun N amplitude offset vs
      = (vs.map (scopeRescale amplitude offset)).drop (vs.length - N) := by
    rw [hmap, scopePush_fold N hN]
    rw [List.length_map]
  refine ⟨h1, ?_, ?_⟩ <;> rw [h1, List.length_drop, List.length_map] <;> omega

/-- C5 witness: the capture FIFO characterization at capacity 2, amplitude 1,
offset 0, over the value sequence 1, 2, 3. -/
theorem C5_witness :
    1 ≤ 2 ∧
    (scopeRun 2 1 0 [1, 2, 3]
        = (([1, 2, 3] : List ℚ).map (scopeRescale 1 0)).drop ([1, 2, 3].length - 2) ∧
      (scopeRun 2 1 0 [1, 2, 3]).length = min ([1, 2, 3] : List ℚ).length 2 ∧
      (scopeRun 2 1 0 [1, 2, 3]).length ≤ 2) :=
  ⟨by norm_num, C5_capture_fifo 2 1 0 [1, 2, 3] (by norm_num)⟩

/-- C6: the rescaling of Scope::loop performs no division when the configured
amplitude is not positive, returning exactly value - offset there, and
divides the offset-shifted value by the amplitude when it is positive. -/
theorem C6_rescale_division (amplitude offset value : ℚ) :
    (amplitude ≤ 0 → scopeRescale amplitude offset value = value - offset) ∧
    (0 < amplitude → scopeRescale amplitude offset value = (value - offset) / amplitude) := by
  constructor <;> intro h
  · rw [scopeRescale, if_neg (by linarith)]
  · rw [scopeRescale, if_pos h]

/-- C6 witness: the rescaling rule at amplitude 0 and at amplitude 2, with
offset 3 and value 10. -/
theorem C6_witness :
    scopeRescale 0 3 10 = 10 - 3 ∧ scopeRescale 2 3 10 = (10 - 3) / 2 :=
  ⟨(C6_rescale_division 0 3 10).1 (by norm_num), (C6_rescale_division 2 3 10).2 (by norm_num)⟩

/- ===== I/O Registry construction (IORegistry.cpp) ===== -/

/-- The four concrete unit kinds constructed by IORegistry::begin; the field
called ratio in the source is named divider here. -/
inductive IOUnit where
  | a0 (id : String) (bits : ℕ) (vref divider : ℚ)
  | ads1115 (id : String) (addr channel : ℕ) (pga : ℚ)
  | mcp4725 (id : String) (addr : ℕ) (bits : ℕ) (vref : ℚ)
  | pwm0_10v (id : String)
deriving DecidableEq

/-- Identifier of a unit, as returned by IOBase::id(). -/
def IOUnit.uid : IOUnit → String
  | .a0 i _ _ _ => i
  | .ads1115 i _ _ _ => i
  | .mcp4725 i _ _ _ => i
  | .pwm0_10v i => i

/-- One device descriptor from the devices array of the io configuration. -/
structure DeviceDesc where
  id : String
  driver : String
  bits : ℕ
  vref : ℚ
  divider : ℚ
  i2cAddr : ℕ
  channel : ℕ
  pga : ℚ
deriving DecidableEq

/-- Driver-tag dispatch of IORegistry::begin: recognized tags construct the
matching concrete unit, an unknown tag is skipped with a warning. -/
def makeUnit (d : DeviceDesc) : Option IOUnit :=
  if d.driver = "a0" then some (.a0 d.id d.bits d.vref d.divider)
  else if d.driver = "ads1115" then some (.ads1115 d.id d.i2cAddr d.channel d.pga)
  else if d.driver = "mcp4725" then some (.mcp4725 d.id d.i2cAddr d.bits d.vref)
  else if d.driver = "0_10v" then some (.pwm0_10v d.id)
  else none

/-- Registry state: the insertion-ordered list and the id map, the map being
modelled as an association list with insert-or-overwrite semantics as in
std::map operator[]. -/
structure RegState where
  list : List IOUnit
  map : List (String × IOUnit)
deriving DecidableEq

/-- Insert-or-overwrite on the id map, as std::map operator[] assignment. -/
def mapInsert (m : List (String × IOUnit)) (k : String) (v : IOUnit) :
    List (String × IOUnit) :=
  if m.any (fun p => p.1 == k) then m.map (fun p => if p.1 == k then (k, v) else p)
  else m ++ [(k, v)]

/-- Lookup on the id map, as std::map::find. -/
def mapFind (m : List (String × IOUnit)) (k : String) : Option IOUnit :=
  (m.find? (fun p => p.1 == k)).map (fun p => p.2)

/-- Embedding of IORegistry::registerIO: push the unit onto the list and
assign it into the id map under its own id. -/
def registerUnit (st : RegState) (u : IOUnit) : RegState :=
  ⟨st.list ++ [u], mapInsert st.map (IOUnit.uid u) u⟩

/-- Embedding of the construction loop of IORegistry::begin over the devices
array, starting from the cleared list and map. -/
def regBegin (devs : List DeviceDesc) : RegState :=
  devs.foldl
    (fun st d =>
      match makeUnit d with
      | some u => registerUnit st u
      | none => st)
    ⟨[], []⟩

/-- Embedding of IORegistry::get. -/
def regGet (st : RegState) (k : String) : Option IOUnit := mapFind st.map k

/-- Configuration with two recognized descriptors sharing the id x but with
different bit depths. -/
def dupConfig : List DeviceDesc :=
  [⟨"x", "a0", 10, 1, 1, 0, 0, 0⟩, ⟨"x", "a0", 12, 1, 1, 0, 0, 0⟩]

/-- C10: after IORegistry::begin on a configuration holding two recognized
descriptors with the same id, the enumeration list holds two distinct units
both carrying that id, get returns only the later-constructed unit, and the
list and the id map disagree in size. -/
theorem C10_duplicate_ids :
    (regBegin dupConfig).list = [IOUnit.a0 "x" 10 1 1, IOUnit.a0 "x" 12 1 1] ∧
    IOUnit.a0 "x" 10 1 1 ≠ IOUnit.a0 "x" 12 1 1 ∧
    (regBegin dupConfig).list.map IOUnit.uid = ["x", "x"] ∧
    regGet (regBegin dupConfig) "x" = some (IOUnit.a0 "x" 12 1 1) ∧
    (regBegin dupConfig).map.length = 1 ∧
    (regBegin dupConfig).list.length = 2 := by
  refine ⟨?_, ?_, ?_, ?_, ?_, ?_⟩ <;> first
    | rfl
    | decide

/- ===== Synthesis Engine (FuncGen.cpp) ===== -/

/-- Runtime synthesis state of FuncGen: the resolved target unit (none when
the id did not resolve, as the null IOBase pointer), frequency in Hz,
amplitude and offset as fractions of full scale, the waveform tag, and the
phase-reference timestamp in milliseconds. -/
structure FuncGenState where
  target : Option IOUnit
  freq : ℝ
  amp : ℝ
  offset : ℝ
  wave : String
  start : ℕ

/-- Persisted funcgen configuration document; amplitude and offset are kept
in the boundary unit, percent. -/
structure FuncGenDoc where
  target : String
  freq : ℝ
  amp : ℝ
  offset : ℝ
  wave : String

/-- Elapsed time in seconds since the phase-reference timestamp, as computed
at the top of FuncGen::loop from millis(); time moves forward, so the Nat
truncated subtraction agrees with the unsigned machine subtraction. -/
noncomputable def elapsedSec (start now : ℕ) : ℝ := ((now - start : ℕ) : ℝ) / 1000

/-- Unit waveform dispatch of FuncGen::loop: sine, square and triangle by
their tags, any other tag yielding the constant 0; for the nonnegative t and
freq arising here, Int.fract matches fmodf with modulus 1. -/
noncomputable def unitWave (wave : String) (freq t : ℝ) : ℝ :=
  if wave = "sine" then Real.sin (2 * Real.pi * freq * t)
  else if wave = "square" then (if 0 ≤ Real.sin (2 * Real.pi * freq * t) then 1 else -1)
  else if wave = "triangle" then
    (if Int.fract (t * freq) < 1 / 2 then Int.fract (t * freq) * 4 - 1
     else 3 - Int.fract (t * freq) * 4)
  else 0

/-- Two sequential clamping ifs applied to y in FuncGen::loop. -/
noncomputable def clampY (y : ℝ) : ℝ :=
  let y1 := if y < 0 then 0 else y
  if y1 > 1 then 1 else y1

/-- Output fraction of FuncGen::loop as a function of the elapsed time t. -/
noncomputable def funcGenYAt (st : FuncGenState) (t : ℝ) : ℝ :=
  clampY (st.offset + st.amp / 2 * unitWave st.wave st.freq t + st.amp / 2)

/-- Embedding of FuncGen::loop at time now: none models the early return on
a null target, otherwise the percentage passed to writePercent. -/
noncomputable def funcGenLoop (st : FuncGenState) (now : ℕ) : Option ℝ :=
  if st.target = none then none
  else some (funcGenYAt st (elapsedSec st.start now) * 100)

/-- Embedding of FuncGen::updateTarget: re-resolve the target id against the
registry, overwrite every parameter (percent converted to fraction), reset
the phase-reference timestamp to now, and write the new parameters into the
funcgen document together with a save request; the prior state st and prior
document doc are discarded wholesale. -/
noncomputable def updateTarget (reg : String → Option IOUnit)
    (_st : FuncGenState) (_doc : FuncGenDoc) (id : String)
    (freq amp off : ℝ) (wave : String) (now : ℕ) :
    FuncGenState × FuncGenDoc × Bool :=
  (⟨reg id, freq, amp / 100, off / 100, wave, now⟩, ⟨id, freq, amp, off, wave⟩, true)

/-- Synthesis state bound to a target but carrying an unrecognized waveform
tag, with amplitude fraction one half and offset 0. -/
noncomputable def fgNoise : FuncGenState :=
  ⟨some (IOUnit.pwm0_10v "out"), 50, 1 / 2, 0, "noise", 0⟩

lemma unitWave_unknown (wave : String) (freq t : ℝ)
    (hs : wave ≠ "sine") (hq : wave ≠ "square") (ht : wave ≠ "triangle") :
    unitWave wave freq t = 0 := by
  rw [unitWave, if_neg hs, if_neg hq, if_neg ht]

/- ===== Claim C3 ===== -/

/-- C3 counterexample: with the unrecognized tag noise, amplitude fraction
one half and offset 0, a bound engine drives 25 percent at every instant;
the output is flat but not the constant 0 the claim states. -/
theorem C3_counterexample :
    funcGenLoop fgNoise 0 = some 25 ∧ (25 : ℝ) ≠ 0 := by
  constructor
  · rw [funcGenLoop, if_neg (by decide)]
    have hx : unitWave fgNoise.wave fgNoise.freq (elapsedSec fgNoise.start 0) = 0 :=
      unitWave_unknown _ _ _ (by decide) (by decide) (by decide)
    rw [funcGenYAt, hx, mul_zero, add_zero]
    have hcl : clampY (fgNoise.offset + fgNoise.amp / 2) = 1 / 4 := by
      show clampY ((0 : ℝ) + (1 / 2) / 2) = 1 / 4
      rw [clampY]
      norm_num
    rw [hcl]
    norm_num
  · norm_num

/-- C3 (amended): for every waveform tag other than sine, square and
triangle, and every bound target, the unit waveform is held at the constant
0, so every step drives the same clamped level offset + amp/2; the output is
flat (time-independent) rather than a failure, but equals 0 only when that
clamped level is 0. -/
theorem C3_flat_output (st : FuncGenState) (u : IOUnit) (now now2 : ℕ)
    (htgt : st.target = some u)
    (hs : st.wave ≠ "sine") (hq : st.wave ≠ "square") (ht : st.wave ≠ "triangle") :
    funcGenLoop st now = some (clampY (st.offset + st.amp / 2) * 100) ∧
    funcGenLoop st now = funcGenLoop st now2 := by
  have hy : ∀ n : ℕ, funcGenLoop st n = some (clampY (st.offset + st.amp / 2) * 100) := by
    intro n
    rw [funcGenLoop, if_neg (by rw [htgt]; exact fun hx => Option.noConfusion hx)]
    rw [funcGenYAt, unitWave_unknown st.wave st.freq _ hs hq ht, mul_zero, add_zero]
  exact ⟨hy now, (hy now).trans (hy now2).symm⟩

/-- C3 witness: the flat-output characterization at the concrete bound state
fgNoise, compared at the instants 3 and 7. -/
theorem C3_witness :
    fgNoise.target = some (IOUnit.pwm0_10v "out") ∧
    fgNoise.wave ≠ "sine" ∧ fgNoise.wave ≠ "square" ∧ fgNoise.wave ≠ "triangle" ∧
    (funcGenLoop fgNoise 3 = some (clampY (fgNoise.offset + fgNoise.amp / 2) * 100) ∧
      funcGenLoop fgNoise 3 = funcGenLoop fgNoise 7) :=
  ⟨rfl, by decide, by decide, by decide,
    C3_flat_output fgNoise (IOUnit.pwm0_10v "out") 3 7 rfl
      (by decide) (by decide) (by decide)⟩

/- ===== Claim C7 ===== -/

/-- C7: updateTarget records the call time as the phase-reference timestamp:
the new state carries start = now, a loop at that same instant computes
elapsed time 0 and hence evaluates the waveform at t = 0 regardless of the
prior parameter set, and the new parameters are written into the funcgen
document with a save request. -/
theorem C7_phase_reset (reg : String → Option IOUnit) (st : FuncGenState)
    (doc : FuncGenDoc) (id : String) (freq amp off : ℝ) (wave : String) (now : ℕ) :
    (updateTarget reg st doc id freq amp off wave now).1.start = now ∧
    elapsedSec (updateTarget reg st doc id freq amp off wave now).1.start now = 0 ∧
    funcGenYAt (updateTarget reg st doc id freq amp off wave now).1
        (elapsedSec (updateTarget reg st doc id freq amp off wave now).1.start now)
      = funcGenYAt (updateTarget reg st doc id freq amp off wave now).1 0 ∧
    (updateTarget reg st doc id freq amp off wave now).2.1 = ⟨id, freq, amp, off, wave⟩ ∧
    (updateTarget reg st doc id freq amp off wave now).2.2 = true := by
  have he : elapsedSec (updateTarget reg st doc id freq amp off wave now).1.start now = 0 := by
    show elapsedSec now now = 0
    rw [elapsedSec, Nat.sub_self]
    norm_num
  exact ⟨rfl, he, by rw [he], rfl, rfl⟩

/- ===== Claim C9 ===== -/

/-- C9: updateTarget with an id that resolves to no registered unit is not
atomic: it still overwrites frequency, amplitude, offset and waveform,
resets the phase-reference timestamp, writes the document and requests the
save, while leaving the target null, so every subsequent loop is a no-op. -/
theorem C9_unresolved_target (reg : String → Option IOUnit) (st : FuncGenState)
    (doc : FuncGenDoc) (id : String) (freq amp off : ℝ) (wave : String)
    (now : ℕ) (h : reg id = none) :
    (updateTarget reg st doc id freq amp off wave now).1.target = none ∧
    (updateTarget reg st doc id freq amp off wave now).1.freq = freq ∧
    (updateTarget reg st doc id freq amp off wave now).1.amp = amp / 100 ∧
    (updateTarget reg st doc id freq amp off wave now).1.offset = off / 100 ∧
    (updateTarget reg st doc id freq amp off wave now).1.wave = wave ∧
    (updateTarget reg st doc id freq amp off wave now).1.start = now ∧
    (updateTarget reg st doc id freq amp off wave now).2.1 = ⟨id, freq, amp, off, wave⟩ ∧
    (updateTarget reg st doc id freq amp off wave now).2.2 = true ∧
    ∀ later : ℕ,
      funcGenLoop (updateTarget reg st doc id freq amp off wave now).1 later = none := by
  refine ⟨h, rfl, rfl, rfl, rfl, rfl, rfl, rfl, ?_⟩
  intro later
  rw [funcGenLoop, if_pos]
  show reg id = none
  exact h

/-- C9 witness: the non-atomic overwrite at an always-empty registry, a prior
sine state, and replacement parameters for a square wave. -/
theorem C9_witness :
    (fun _ : String => (none : Option IOUnit)) "out" = none ∧
    ((updateTarget (fun _ => none) ⟨none, 0, 0, 0, "sine", 0⟩ ⟨"", 0, 0, 0, ""⟩
        "out" 1 2 3 "square" 5).1.target = none ∧
      (updateTarget (fun _ => none) ⟨none, 0, 0, 0, "sine", 0⟩ ⟨"", 0, 0, 0, ""⟩
        "out" 1 2 3 "square" 5).1.freq = 1 ∧
      (updateTarget (fun _ => none) ⟨none, 0, 0, 0, "sine", 0⟩ ⟨"", 0, 0, 0, ""⟩
        "out" 1 2 3 "square" 5).1.amp = 2 / 100 ∧
      (updateTarget (fun _ => none) ⟨none, 0, 0, 0, "sine", 0⟩ ⟨"", 0, 0, 0, ""⟩
        "out" 1 2 3 "square" 5).1.offset = 3 / 100 ∧
      (updateTarget (fun _ => none) ⟨none, 0, 0, 0, "sine", 0⟩ ⟨"", 0, 0, 0, ""⟩
        "out" 1 2 3 "square" 5).1.wave = "square" ∧
      (updateTarget (fun _ => none) ⟨none, 0, 0, 0, "sine", 0⟩ ⟨"", 0, 0, 0, ""⟩
        "out" 1 2 3 "square" 5).1.start = 5 ∧
      (updateTarget (fun _ => none) ⟨none, 0, 0, 0, "sine", 0⟩ ⟨"", 0, 0, 0, ""⟩
        "out" 1 2 3 "square" 5).2.1 = ⟨"out", 1, 2, 3, "square"⟩ ∧
      (updateTarget (fun _ => none) ⟨none, 0, 0, 0, "sine", 0⟩ ⟨"", 0, 0, 0, ""⟩
        "out" 1 2 3 "square" 5).2.2 = true ∧
      ∀ later : ℕ,
        funcGenLoop (updateTarget (fun _ => none) ⟨none, 0, 0, 0, "sine", 0⟩
          ⟨"", 0, 0, 0, ""⟩ "out" 1 2 3 "square" 5).1 later = none) :=
  ⟨rfl, C9_unresolved_target (fun _ => none) ⟨none, 0, 0, 0, "sine", 0⟩
    ⟨"", 0, 0, 0, ""⟩ "out" 1 2 3 "square" 5 rfl⟩

/- ===== Sink writes (IORegistry.cpp, IO_MCP4725 / IO_0_10V) ===== -/

/-- Two sequential clamping ifs shared by both writePercent bodies. -/
def clampPercent (p : ℚ) : ℚ :=
  let p1 := if p < 0 then 0 else p
  if p1 > 100 then 100 else p1

/-- Embedding of IO_MCP4725::writePercent: the clamped percentage becomes a
ratio, and the committed code is the uint16 truncation of
ratio * ((1 << bits) - 1) + 0.5, which for the nonnegative values here is the
floor. -/
def mcp4725Code (bits : ℕ) (percent : ℚ) : ℤ :=
  ⌊clampPercent percent / 100 * ((2 : ℚ) ^ bits - 1) + 1 / 2⌋

/-- Embedding of IO_0_10V::writePercent: same clamping, with the fixed
10-bit PWM full scale 1023 of analogWrite. -/
def pwm0_10vCode (percent : ℚ) : ℤ :=
  ⌊clampPercent percent / 100 * 1023 + 1 / 2⌋

/- ===== Claim C8 ===== -/

/-- C8: every writePercent first clamps its argument into [0, 100]; the
MCP4725 sink commits round(clamped / 100 * (2^bits - 1)) where round is
round-half-up, and writePercent(150) therefore drives exactly the same code
as writePercent(100) on both sinks. -/
theorem C8_writePercent_clamp (bits : ℕ) (p : ℚ) :
    (0 ≤ clampPercent p ∧ clampPercent p ≤ 100) ∧
    mcp4725Code bits p = round (clampPercent p / 100 * ((2 : ℚ) ^ bits - 1)) ∧
    mcp4725Code bits 150 = mcp4725Code bits 100 ∧
    pwm0_10vCode 150 = pwm0_10vCode 100 := by
  have h150 : clampPercent 150 = clampPercent 100 := by decide
  refine ⟨?_, ?_, ?_, ?_⟩
  · rw [clampPercent]
    split_ifs <;> constructor <;> linarith
  · rw [mcp4725Code, round_eq]
  · rw [mcp4725Code, mcp4725Code, h150]
  · rw [pwm0_10vCode, pwm0_10vCode, h150]
